import Mathlib

/-!
Verification of the deduplicating slog handler in deduplog.go.

Shallow embedding conventions:
* `time.Time` and `time.Duration` become `Int` (nanoseconds); each Go call to
  `time.Now()` inside one operation is modelled by an explicit `now` argument
  (within a single operation all reads of the clock are taken at the same
  instant).
* The Go map `map[string]time.Time` becomes an association list
  `List (String × Int)`; map assignment replaces the first binding of the key
  or appends a fresh one, `delete` removes the binding, and iteration order is
  the list order (one admissible order of the nondeterministic Go map range).
* `panic` becomes `Option.none`; the wrapped `slog.Handler`, the mutex and the
  context are outside the model, so `Handle` returns, besides the new state, a
  `Bool` telling whether the record was forwarded to the wrapped sink.
-/

namespace Deduplog

def second : Int := 1000000000

def DefaultHistoryRetentionPeriod : Int := 10 * second

def DefaultMaxHistoryCount : Int := 1024

def LevelInfo : Int := 0

structure HandlerOptions where
  HistoryRetentionPeriod : Int
  MaxHistoryCount : Int
  DedupLogLevel : Int
deriving DecidableEq, Repr

/-- The state of a `DedupHandler`: the fields `ctx`, `mu` and the wrapped
`handler` carry no dedup state and are left out of the model. -/
structure DedupHandler where
  opts : HandlerOptions
  history : List (String × Int)
  historyCount : Int
deriving DecidableEq, Repr

/-- An slog record, restricted to the two fields the handler reads. -/
structure Record where
  Message : String
  Level : Int
deriving DecidableEq, Repr

/-- Map read: `h.history[msg]` (first binding of the key). -/
def histFind : List (String × Int) → String → Option Int
  | [], _ => none
  | (k, v) :: rest, m => if k = m then some v else histFind rest m

/-- Map assignment: `h.history[msg] = t` (replace the binding, or append). -/
def histSet : List (String × Int) → String → Int → List (String × Int)
  | [], m, t => [(m, t)]
  | (k, v) :: rest, m, t =>
      if k = m then (m, t) :: rest else (k, v) :: histSet rest m t

/-- Map deletion: `delete(h.history, k)`. -/
def histDelete : List (String × Int) → String → List (String × Int)
  | [], _ => []
  | (k2, v) :: rest, k =>
      if k2 = k then histDelete rest k else (k2, v) :: histDelete rest k

/-- `NewDedupHandler` (deduplog.go:30): copies the options when given,
defaults otherwise, and starts from an empty history. The sweeper goroutine
it spawns is modelled separately by `sweeperRunCount`. -/
def NewDedupHandler (opts : Option HandlerOptions) : DedupHandler :=
  match opts with
  | some o => { opts := o, history := [], historyCount := 0 }
  | none =>
      { opts :=
          { HistoryRetentionPeriod := DefaultHistoryRetentionPeriod
            MaxHistoryCount := DefaultMaxHistoryCount
            DedupLogLevel := LevelInfo }
        history := []
        historyCount := 0 }

/-- `expired` (deduplog.go:60): `time.Now().After(expireTime)`. -/
def expired (now expireTime : Int) : Bool :=
  decide (expireTime < now)

/-- `removeExpiredHistory`, the history part (deduplog.go:68): range over the
map deleting every expired entry. -/
def sweepHist : List (String × Int) → Int → List (String × Int)
  | [], _ => []
  | (k, v) :: rest, now =>
      if expired now v then sweepHist rest now else (k, v) :: sweepHist rest now

/-- The number of entries `removeExpiredHistory` deletes, each one
decrementing `historyCount` by 1. -/
def countExpired : List (String × Int) → Int → Nat
  | [], _ => 0
  | (_, v) :: rest, now =>
      (if expired now v then 1 else 0) + countExpired rest now

/-- `removeExpiredHistory` (deduplog.go:64). -/
def removeExpiredHistory (s : DedupHandler) (now : Int) : DedupHandler :=
  { s with
    history := sweepHist s.history now
    historyCount := s.historyCount - (countExpired s.history now : Int) }

/-- `duplicated` (deduplog.go:80). -/
def duplicated (s : DedupHandler) (msg : String) (now : Int) : Bool :=
  match histFind s.history msg with
  | none => false
  | some t => !(expired now t)

/-- The range loop of `removeOldestHistory` (deduplog.go:95): carries the
candidate key and time, replacing them whenever a strictly earlier expiry is
seen. -/
def removeOldestLoop : List (String × Int) → String → Int → String × Int
  | [], k, t => (k, t)
  | (k2, v) :: rest, k, t =>
      if v < t then removeOldestLoop rest k2 v else removeOldestLoop rest k t

/-- `removeOldestHistory` (deduplog.go:92): the candidate starts as the empty
key with sentinel time `now + retention`; if no entry replaced it the function
panics (`none`). -/
def removeOldestHistory (s : DedupHandler) (now : Int) : Option DedupHandler :=
  let r := removeOldestLoop s.history "" (now + s.opts.HistoryRetentionPeriod)
  if r.1 = "" then
    none
  else
    some { s with
           history := histDelete s.history r.1
           historyCount := s.historyCount - 1 }

/-- `updateHistory` (deduplog.go:108). -/
def updateHistory (s : DedupHandler) (msg : String) (now : Int) :
    Option DedupHandler :=
  match histFind s.history msg with
  | some _ =>
      some { s with
             history := histSet s.history msg (now + s.opts.HistoryRetentionPeriod) }
  | none =>
      match (if s.opts.MaxHistoryCount ≤ s.historyCount
             then removeOldestHistory s now else some s) with
      | none => none
      | some s2 =>
          some { s2 with
                 history := histSet s2.history msg (now + s2.opts.HistoryRetentionPeriod)
                 historyCount := s2.historyCount + 1 }

/-- `Handle` (deduplog.go:120): the returned `Bool` is `true` when the record
was forwarded to the wrapped handler. -/
def Handle (s : DedupHandler) (r : Record) (now : Int) :
    Option (DedupHandler × Bool) :=
  if r.Level ≤ s.opts.DedupLogLevel ∧ duplicated s r.Message now = true then
    some (s, false)
  else
    match updateHistory s r.Message now with
    | none => none
    | some s2 => some (s2, true)

/-- `WithAttrs` (deduplog.go:128): a fresh handler with the same options; the
derived wrapped sink is outside the model. -/
def WithAttrs (s : DedupHandler) : DedupHandler :=
  NewDedupHandler (some s.opts)

/-- `WithGroup` (deduplog.go:132): a fresh handler with the same options. -/
def WithGroup (s : DedupHandler) : DedupHandler :=
  NewDedupHandler (some s.opts)

/-- Events observed by the sweeper goroutine, in order: a tick of the
5-second ticker or the firing of the cancellation context. -/
inductive SweeperEvent
  | done
  | tick
deriving DecidableEq, Repr

/-- The sweeper goroutine of `NewDedupHandler` (deduplog.go:47): a single
`select` with no enclosing loop, so only the first event is consumed; a tick
runs `removeExpiredHistory` once and the goroutine returns. -/
def sweeperRunCount : List SweeperEvent → Nat
  | [] => 0
  | SweeperEvent.done :: _ => 0
  | SweeperEvent.tick :: _ => 1

/-- Spec-side comparison model of the sweeper, following the words of the
spec: a periodic task that performs cleanup on every tick until the
cancellation signal fires. -/
def sweeperRunCountSpec : List SweeperEvent → Nat
  | [] => 0
  | SweeperEvent.done :: _ => 0
  | SweeperEvent.tick :: rest => 1 + sweeperRunCountSpec rest

/-- The message keys of the history, in iteration order. -/
def histKeys (hist : List (String × Int)) : List String :=
  hist.map Prod.fst

/-- Bookkeeping invariant: the counter equals the number of keys of the map,
and the association list has no duplicate key (as a Go map has). -/
def inv (s : DedupHandler) : Prop :=
  s.historyCount = (s.history.length : Int) ∧ (histKeys s.history).Nodup

/-! Helper lemmas about the association-list operations. -/

lemma histFind_eq_none_iff (hist : List (String × Int)) (m : String) :
    histFind hist m = none ↔ m ∉ histKeys hist := by
  induction hist with
  | nil => simp [histFind, histKeys]
  | cons p rest ih =>
    obtain ⟨k, v⟩ := p
    by_cases h : k = m
    · subst h
      simp [histFind, histKeys]
    · simp only [histFind, if_neg h, histKeys, List.map_cons, List.mem_cons,
        not_or, ih]
      constructor
      · intro h2
        exact ⟨fun hm => h hm.symm, h2⟩
      · intro h2
        exact h2.2

lemma histFind_histSet_self (hist : List (String × Int)) (m : String) (t : Int) :
    histFind (histSet hist m t) m = some t := by
  induction hist with
  | nil => simp [histSet, histFind]
  | cons p rest ih =>
    obtain ⟨k, v⟩ := p
    by_cases h : k = m
    · simp [histSet, if_pos h, histFind]
    · simp [histSet, if_neg h, histFind, if_neg h, ih]

lemma histSet_of_none (hist : List (String × Int)) (m : String) (t : Int)
    (h : histFind hist m = none) : histSet hist m t = hist ++ [(m, t)] := by
  induction hist with
  | nil => simp [histSet]
  | cons p rest ih =>
    obtain ⟨k, v⟩ := p
    by_cases hk : k = m
    · simp [histFind, if_pos hk] at h
    · simp only [histFind, if_neg hk] at h
      simp [histSet, if_neg hk, ih h]

lemma histKeys_histSet_of_some (hist : List (String × Int)) (m : String)
    (t w : Int) (h : histFind hist m = some w) :
    histKeys (histSet hist m t) = histKeys hist := by
  induction hist with
  | nil => simp [histFind] at h
  | cons p rest ih =>
    obtain ⟨k, v⟩ := p
    by_cases hk : k = m
    · subst hk
      simp [histSet, histKeys]
    · simp only [histFind, if_neg hk] at h
      have h3 := ih h
      simp only [histKeys] at h3
      simp [histSet, if_neg hk, histKeys, h3]

lemma length_histSet_of_some (hist : List (String × Int)) (m : String)
    (t w : Int) (h : histFind hist m = some w) :
    (histSet hist m t).length = hist.length := by
  have h2 := histKeys_histSet_of_some hist m t w h
  have h3 : (histKeys (histSet hist m t)).length = (histKeys hist).length := by
    rw [h2]
  simpa [histKeys] using h3

lemma histDelete_sublist (hist : List (String × Int)) (k : String) :
    List.Sublist (histDelete hist k) hist := by
  induction hist with
  | nil => simp [histDelete]
  | cons p rest ih =>
    obtain ⟨k2, v⟩ := p
    by_cases h : k2 = k
    · simpa [histDelete, if_pos h] using ih.cons (k2, v)
    · simpa [histDelete, if_neg h] using ih.cons₂ (k2, v)

lemma histDelete_of_not_mem (hist : List (String × Int)) (k : String)
    (h : k ∉ histKeys hist) : histDelete hist k = hist := by
  induction hist with
  | nil => simp [histDelete]
  | cons p rest ih =>
    obtain ⟨k2, v⟩ := p
    simp only [histKeys, List.map_cons, List.mem_cons, not_or] at h
    have hk : k2 ≠ k := fun he => h.1 he.symm
    simp [histDelete, if_neg hk, ih h.2]

lemma length_histDelete (hist : List (String × Int)) (k : String)
    (hnd : (histKeys hist).Nodup) (hmem : k ∈ histKeys hist) :
    (histDelete hist k).length + 1 = hist.length := by
  induction hist with
  | nil => simp [histKeys] at hmem
  | cons p rest ih =>
    obtain ⟨k2, v⟩ := p
    simp only [histKeys, List.map_cons, List.nodup_cons] at hnd
    by_cases h : k2 = k
    · subst h
      rw [histDelete]
      simp only [if_pos rfl]
      rw [histDelete_of_not_mem rest k2 hnd.1]
      simp
    · simp only [histKeys, List.map_cons, List.mem_cons] at hmem
      have hmem2 : k ∈ histKeys rest := by
        rcases hmem with h2 | h2
        · exact absurd h2.symm h
        · exact h2
      rw [histDelete]
      simp only [if_neg h, List.length_cons]
      rw [← ih hnd.2 hmem2]

lemma histKeys_sublist {l1 l2 : List (String × Int)}
    (h : List.Sublist l1 l2) : List.Sublist (histKeys l1) (histKeys l2) :=
  h.map Prod.fst

lemma sweepHist_sublist (hist : List (String × Int)) (now : Int) :
    List.Sublist (sweepHist hist now) hist := by
  induction hist with
  | nil => simp [sweepHist]
  | cons p rest ih =>
    obtain ⟨k, v⟩ := p
    by_cases h : expired now v
    · simpa [sweepHist, h] using ih.cons (k, v)
    · simpa [sweepHist, h] using ih.cons₂ (k, v)

lemma length_sweepHist_add (hist : List (String × Int)) (now : Int) :
    (sweepHist hist now).length + countExpired hist now = hist.length := by
  induction hist with
  | nil => simp [sweepHist, countExpired]
  | cons p rest ih =>
    obtain ⟨k, v⟩ := p
    by_cases h : expired now v
    · simp only [sweepHist, if_pos h, countExpired, List.length_cons]
      omega
    · simp only [sweepHist, if_neg h, countExpired, List.length_cons]
      omega

lemma sweepHist_all (hist : List (String × Int)) (now : Int) :
    (sweepHist hist now).all (fun p => !(expired now p.2)) = true := by
  induction hist with
  | nil => simp [sweepHist]
  | cons p rest ih =>
    obtain ⟨k, v⟩ := p
    by_cases h : expired now v
    · simpa [sweepHist, h] using ih
    · simp only [sweepHist, if_neg h, List.all_cons, ih, Bool.and_true]
      simp [h]

lemma removeOldestLoop_mem (hist : List (String × Int)) (k0 : String)
    (t0 : Int) :
    removeOldestLoop hist k0 t0 = (k0, t0) ∨ removeOldestLoop hist k0 t0 ∈ hist := by
  induction hist generalizing k0 t0 with
  | nil => simp [removeOldestLoop]
  | cons p rest ih =>
    obtain ⟨k2, v⟩ := p
    by_cases h : v < t0
    · rcases ih k2 v with h2 | h2
      · right
        simp [removeOldestLoop, if_pos h, h2]
      · right
        simp [removeOldestLoop, if_pos h]
        right
        exact h2
    · rcases ih k0 t0 with h2 | h2
      · left
        simpa [removeOldestLoop, if_neg h] using h2
      · right
        simp [removeOldestLoop, if_neg h]
        right
        exact h2

lemma removeOldestLoop_min (hist : List (String × Int)) (k0 : String)
    (t0 : Int) :
    (removeOldestLoop hist k0 t0).2 ≤ t0 ∧
      ∀ p ∈ hist, (removeOldestLoop hist k0 t0).2 ≤ p.2 := by
  induction hist generalizing k0 t0 with
  | nil => simp [removeOldestLoop]
  | cons p rest ih =>
    obtain ⟨k2, v⟩ := p
    by_cases h : v < t0
    · obtain ⟨ha, hb⟩ := ih k2 v
      refine ⟨?_, ?_⟩
      · simp only [removeOldestLoop, if_pos h]
        omega
      · intro q hq
        simp only [removeOldestLoop, if_pos h]
        rcases List.mem_cons.mp hq with h2 | h2
        · subst h2
          exact ha
        · exact hb q h2
    · obtain ⟨ha, hb⟩ := ih k0 t0
      refine ⟨?_, ?_⟩
      · simpa [removeOldestLoop, if_neg h] using ha
      · intro q hq
        simp only [removeOldestLoop, if_neg h]
        rcases List.mem_cons.mp hq with h2 | h2
        · subst h2
          omega
        · exact hb q h2

lemma histFind_histDelete_none (hist : List (String × Int)) (m k : String)
    (h : histFind hist m = none) : histFind (histDelete hist k) m = none := by
  rw [histFind_eq_none_iff] at h ⊢
  intro hmem
  exact h ((histKeys_sublist (histDelete_sublist hist k)).mem hmem)

lemma histKeys_histSet_of_none (hist : List (String × Int)) (m : String)
    (t : Int) (h : histFind hist m = none) :
    histKeys (histSet hist m t) = histKeys hist ++ [m] := by
  rw [histSet_of_none hist m t h]
  simp [histKeys]

lemma length_histSet_of_none (hist : List (String × Int)) (m : String)
    (t : Int) (h : histFind hist m = none) :
    (histSet hist m t).length = hist.length + 1 := by
  rw [histSet_of_none hist m t h]
  simp

lemma nodup_append_single {l : List String} {a : String} (hn : l.Nodup)
    (ha : a ∉ l) : (l ++ [a]).Nodup := by
  simp only [List.nodup_append, List.nodup_cons, List.not_mem_nil,
    not_false_iff, List.nodup_nil, and_true, true_and, hn]
  intro x hx hxa
  simp only [List.mem_singleton] at hxa
  exact ha (hxa ▸ hx)

/-! Preservation of the bookkeeping invariant. -/

lemma inv_NewDedupHandler (o : Option HandlerOptions) :
    inv (NewDedupHandler o) := by
  cases o <;> simp [NewDedupHandler, inv, histKeys]

lemma inv_removeExpiredHistory (s : DedupHandler) (now : Int) (h : inv s) :
    inv (removeExpiredHistory s now) := by
  obtain ⟨hc, hn⟩ := h
  constructor
  · have h2 := length_sweepHist_add s.history now
    simp only [removeExpiredHistory]
    omega
  · exact hn.sublist (histKeys_sublist (sweepHist_sublist s.history now))

lemma inv_removeOldestHistory (s : DedupHandler) (now : Int)
    (s2 : DedupHandler) (h : inv s)
    (he : removeOldestHistory s now = some s2) : inv s2 := by
  obtain ⟨hc, hn⟩ := h
  unfold removeOldestHistory at he
  by_cases hr :
      (removeOldestLoop s.history "" (now + s.opts.HistoryRetentionPeriod)).1 = ""
  · simp [hr] at he
  · simp only [if_neg hr, Option.some.injEq] at he
    have hmem :
        removeOldestLoop s.history "" (now + s.opts.HistoryRetentionPeriod) ∈
          s.history := by
      rcases removeOldestLoop_mem s.history ""
          (now + s.opts.HistoryRetentionPeriod) with h2 | h2
      · exact absurd (congrArg Prod.fst h2) hr
      · exact h2
    have hkmem :
        (removeOldestLoop s.history "" (now + s.opts.HistoryRetentionPeriod)).1 ∈
          histKeys s.history :=
      List.mem_map.mpr ⟨_, hmem, rfl⟩
    have hlen := length_histDelete s.history _ hn hkmem
    subst he
    constructor
    · simp only
      omega
    · exact hn.sublist (histKeys_sublist (histDelete_sublist s.history _))

lemma inv_updateHistory (s : DedupHandler) (m : String) (now : Int)
    (s2 : DedupHandler) (h : inv s) (he : updateHistory s m now = some s2) :
    inv s2 := by
  obtain ⟨hc, hn⟩ := h
  unfold updateHistory at he
  cases hfind : histFind s.history m with
  | some w =>
    rw [hfind] at he
    simp only [Option.some.injEq] at he
    subst he
    constructor
    · simp only
      rw [length_histSet_of_some s.history m _ w hfind]
      exact hc
    · simp only
      rw [show histKeys (histSet s.history m (now + s.opts.HistoryRetentionPeriod)) =
            histKeys s.history from
          histKeys_histSet_of_some s.history m _ w hfind]
      exact hn
  | none =>
    rw [hfind] at he
    by_cases hcap : s.opts.MaxHistoryCount ≤ s.historyCount
    · rw [if_pos hcap] at he
      cases ho : removeOldestHistory s now with
      | none =>
        rw [ho] at he
        simp at he
      | some s3 =>
        rw [ho] at he
        simp only [Option.some.injEq] at he
        obtain ⟨hc3, hn3⟩ := inv_removeOldestHistory s now s3 ⟨hc, hn⟩ ho
        have hfind3 : histFind s3.history m = none := by
          have hhist : s3.history = histDelete s.history
              (removeOldestLoop s.history ""
                (now + s.opts.HistoryRetentionPeriod)).1 := by
            unfold removeOldestHistory at ho
            by_cases hr :
                (removeOldestLoop s.history ""
                  (now + s.opts.HistoryRetentionPeriod)).1 = ""
            · simp [hr] at ho
            · simp only [if_neg hr, Option.some.injEq] at ho
              rw [← ho]
          rw [hhist]
          exact histFind_histDelete_none s.history m _ hfind
        subst he
        constructor
        · simp only
          rw [length_histSet_of_none s3.history m _ hfind3]
          omega
        · simp only
          rw [histKeys_histSet_of_none s3.history m _ hfind3]
          exact nodup_append_single hn3
            (fun hm => (histFind_eq_none_iff s3.history m).mp hfind3 hm)
    · rw [if_neg hcap] at he
      simp only [Option.some.injEq] at he
      subst he
      constructor
      · simp only
        rw [length_histSet_of_none s.history m _ hfind]
        omega
      · simp only
        rw [histKeys_histSet_of_none s.history m _ hfind]
        exact nodup_append_single hn
          (fun hm => (histFind_eq_none_iff s.history m).mp hfind hm)

lemma inv_Handle (s : DedupHandler) (r : Record) (now : Int)
    (s2 : DedupHandler) (b : Bool) (h : inv s)
    (he : Handle s r now = some (s2, b)) : inv s2 := by
  unfold Handle at he
  by_cases hcond :
      r.Level ≤ s.opts.DedupLogLevel ∧ duplicated s r.Message now = true
  · rw [if_pos hcond] at he
    simp only [Option.some.injEq, Prod.mk.injEq] at he
    exact he.1 ▸ h
  · rw [if_neg hcond] at he
    cases hu : updateHistory s r.Message now with
    | none =>
      rw [hu] at he
      simp at he
    | some s3 =>
      rw [hu] at he
      simp only [Option.some.injEq, Prod.mk.injEq] at he
      exact he.1 ▸ inv_updateHistory s r.Message now s3 h hu

/-! Dispatch lemmas shared by several theorems. -/

lemma duplicated_empty (o : HandlerOptions) (m : String) (now : Int) :
    duplicated ⟨o, [], 0⟩ m now = false := by
  simp [duplicated, histFind]

lemma Handle_fresh (o : HandlerOptions) (r : Record) (now : Int)
    (hmax : 0 < o.MaxHistoryCount) :
    Handle ⟨o, [], 0⟩ r now =
      some (⟨o, [(r.Message, now + o.HistoryRetentionPeriod)], 1⟩, true) := by
  unfold Handle
  rw [if_neg (by simp [duplicated_empty])]
  unfold updateHistory
  simp only [histFind]
  rw [if_neg (by simpa using not_le.mpr hmax)]
  simp [histSet]

lemma duplicated_single_live (o : HandlerOptions) (m : String) (now t : Int)
    (h : now ≤ t) :
    duplicated ⟨o, [(m, t)], 1⟩ m now = true := by
  simp [duplicated, histFind, expired]
  omega

/-- Claim C1: for every message at a severity at or below the dedup
threshold, with positive retention (and a positive size bound, as the
configuration constraints require), dispatching the message twice in
immediate succession from a fresh handler forwards exactly once: the first
call forwards and inserts the entry, the second call is dropped, returns
success and leaves the state unchanged. -/
theorem C1_two_dispatches_forward_once (o : HandlerOptions) (m : String)
    (lv now : Int) (hret : 0 < o.HistoryRetentionPeriod)
    (hmax : 0 < o.MaxHistoryCount) (hlev : lv ≤ o.DedupLogLevel) :
    Handle (NewDedupHandler (some o)) ⟨m, lv⟩ now =
      some (⟨o, [(m, now + o.HistoryRetentionPeriod)], 1⟩, true) ∧
    Handle ⟨o, [(m, now + o.HistoryRetentionPeriod)], 1⟩ ⟨m, lv⟩ now =
      some (⟨o, [(m, now + o.HistoryRetentionPeriod)], 1⟩, false) := by
  constructor
  · exact Handle_fresh o ⟨m, lv⟩ now hmax
  · unfold Handle
    rw [if_pos ⟨hlev, duplicated_single_live o m now _ (by omega)⟩]

/-- Witness for C1 at the concrete scenario of the spec: retention one
minute, message "test" dispatched twice at the same instant. -/
theorem C1_witness :
    Handle (NewDedupHandler (some ⟨60, 2, 0⟩)) ⟨"test", 0⟩ 0 =
      some (⟨⟨60, 2, 0⟩, [("test", 60)], 1⟩, true) ∧
    Handle ⟨⟨60, 2, 0⟩, [("test", 60)], 1⟩ ⟨"test", 0⟩ 0 =
      some (⟨⟨60, 2, 0⟩, [("test", 60)], 1⟩, false) :=
  C1_two_dispatches_forward_once ⟨60, 2, 0⟩ "test" 0 0 (by decide) (by decide)
    (by decide)

/-- Claim C2: a record at or below the threshold whose message is present
with an unexpired expiry is fully absorbed: Handle returns success, does not
forward, and returns the very same state, so the history, the count and in
particular the expiry of the entry are untouched. -/
theorem C2_hit_fully_absorbed (s : DedupHandler) (r : Record) (now t : Int)
    (hlev : r.Level ≤ s.opts.DedupLogLevel)
    (hfind : histFind s.history r.Message = some t)
    (hexp : now ≤ t) :
    Handle s r now = some (s, false) := by
  have hdup : duplicated s r.Message now = true := by
    simp only [duplicated, hfind, expired, Bool.not_eq_true',
      decide_eq_false_iff_not]
    omega
  unfold Handle
  rw [if_pos ⟨hlev, hdup⟩]

/-- Witness for C2: a live entry for "m" is hit at time 5 and the state
comes back unchanged. -/
theorem C2_witness :
    Handle ⟨⟨60, 2, 0⟩, [("m", 60)], 1⟩ ⟨"m", 0⟩ 5 =
      some (⟨⟨60, 2, 0⟩, [("m", 60)], 1⟩, false) :=
  C2_hit_fully_absorbed ⟨⟨60, 2, 0⟩, [("m", 60)], 1⟩ ⟨"m", 0⟩ 5 60 (by decide)
    (by decide) (by decide)

/-- Claim C3: a record at or below the threshold whose history entry has
expired is treated as a cache miss: the record is forwarded and the entry is
re-assigned the expiry now plus the retention period (the count is
unchanged, the key being still present in the map). -/
theorem C3_expired_entry_is_miss (s : DedupHandler) (r : Record) (now t : Int)
    (hlev : r.Level ≤ s.opts.DedupLogLevel)
    (hfind : histFind s.history r.Message = some t)
    (hexp : t < now) :
    Handle s r now =
      some (⟨s.opts,
        histSet s.history r.Message (now + s.opts.HistoryRetentionPeriod),
        s.historyCount⟩, true) ∧
    histFind (histSet s.history r.Message (now + s.opts.HistoryRetentionPeriod))
        r.Message = some (now + s.opts.HistoryRetentionPeriod) := by
  refine ⟨?_, histFind_histSet_self s.history r.Message _⟩
  have hdup : duplicated s r.Message now = false := by
    simp only [duplicated, hfind, expired, Bool.not_eq_false',
      decide_eq_true_eq]
    omega
  have hu : updateHistory s r.Message now =
      some ⟨s.opts,
        histSet s.history r.Message (now + s.opts.HistoryRetentionPeriod),
        s.historyCount⟩ := by
    unfold updateHistory
    rw [hfind]
  unfold Handle
  rw [if_neg (by simp [hdup])]
  rw [hu]

/-- Witness for C3: the entry for "m" expired at time 60 and is hit at time
61, so the dispatch forwards and refreshes the entry to 121. -/
theorem C3_witness :
    Handle ⟨⟨60, 2, 0⟩, [("m", 60)], 1⟩ ⟨"m", 0⟩ 61 =
      some (⟨⟨60, 2, 0⟩, [("m", 121)], 1⟩, true) ∧
    histFind (histSet [("m", 60)] "m" 121) "m" = some 121 :=
  C3_expired_entry_is_miss ⟨⟨60, 2, 0⟩, [("m", 60)], 1⟩ ⟨"m", 0⟩ 61 60
    (by decide) (by decide) (by decide)

/-- Counterexample to claim C4: a record at severity 4 (warn), strictly above
the threshold 0, dispatched on a fresh handler, does get forwarded but the
history table and the live count change (from empty and 0 to one entry and
1), contradicting the part of the claim that says step 3 is skipped and the
table is left unchanged. -/
theorem C4_counterexample :
    Handle ⟨⟨60, 2, 0⟩, [], 0⟩ ⟨"m", 4⟩ 0 =
      some (⟨⟨60, 2, 0⟩, [("m", 60)], 1⟩, true) ∧
    ([("m", 60)] : List (String × Int)) ≠ [] ∧ (1 : Int) ≠ 0 := by
  refine ⟨rfl, by simp, by simp⟩

/-- Claim C4 as amended: a record strictly more severe than the threshold
skips the duplicate check and is always forwarded regardless of repetition,
but the history update is still performed: Handle behaves exactly as
updateHistory followed by a forward. -/
theorem C4_high_severity_always_forwards (s : DedupHandler) (r : Record)
    (now : Int) (hlev : s.opts.DedupLogLevel < r.Level) :
    Handle s r now =
      Option.map (fun s2 => (s2, true)) (updateHistory s r.Message now) := by
  unfold Handle
  rw [if_neg (fun hc => absurd hc.1 (not_le.mpr hlev))]
  cases updateHistory s r.Message now <;> simp

/-- Witness for the amended C4: a warn-level record on a fresh handler is
forwarded and inserted into the history. -/
theorem C4_witness :
    Handle ⟨⟨60, 2, 0⟩, [], 0⟩ ⟨"m2", 4⟩ 0 =
      Option.map (fun s2 => (s2, true))
        (updateHistory ⟨⟨60, 2, 0⟩, [], 0⟩ "m2" 0) :=
  C4_high_severity_always_forwards ⟨⟨60, 2, 0⟩, [], 0⟩ ⟨"m2", 4⟩ 0 (by decide)

/-- Counterexample to claim C5: a full table whose single (hence
earliest-expiry) entry is keyed by the empty string makes the eviction hit
the empty-string sentinel of removeOldestHistory, so inserting a new key
panics (modelled as none) instead of evicting and inserting. -/
theorem C5_counterexample :
    updateHistory ⟨⟨60, 1, 0⟩, [("", 0)], 1⟩ "x" 5 = none ∧
    Handle ⟨⟨60, 1, 0⟩, [("", 0)], 1⟩ ⟨"x", 0⟩ 5 = none := by
  exact ⟨rfl, rfl⟩

/-- Claim C5 as amended: when the table is at capacity and a new key is
inserted, provided the eviction loop selects a non-empty key (the defect
case of the empty-string sentinel excluded), exactly one entry whose expiry
is earliest among all entries is evicted, the new key is inserted, and the
live count is back at its previous value, hence never exceeds the maximum. -/
theorem C5_eviction_evicts_earliest (s : DedupHandler) (m : String)
    (now : Int) (hnew : histFind s.history m = none)
    (hcap : s.opts.MaxHistoryCount ≤ s.historyCount)
    (hsel : (removeOldestLoop s.history ""
      (now + s.opts.HistoryRetentionPeriod)).1 ≠ "") :
    ∃ k t, (k, t) ∈ s.history ∧ (∀ p ∈ s.history, t ≤ p.2) ∧
      updateHistory s m now =
        some ⟨s.opts,
          histSet (histDelete s.history k) m
            (now + s.opts.HistoryRetentionPeriod),
          s.historyCount⟩ := by
  refine ⟨(removeOldestLoop s.history ""
      (now + s.opts.HistoryRetentionPeriod)).1,
    (removeOldestLoop s.history "" (now + s.opts.HistoryRetentionPeriod)).2,
    ?_, ?_, ?_⟩
  · rcases removeOldestLoop_mem s.history ""
        (now + s.opts.HistoryRetentionPeriod) with h2 | h2
    · exact absurd (congrArg Prod.fst h2) hsel
    · simpa using h2
  · intro p hp
    exact (removeOldestLoop_min s.history ""
      (now + s.opts.HistoryRetentionPeriod)).2 p hp
  · have hold : removeOldestHistory s now =
        some ⟨s.opts,
          histDelete s.history (removeOldestLoop s.history ""
            (now + s.opts.HistoryRetentionPeriod)).1,
          s.historyCount - 1⟩ := by
      unfold removeOldestHistory
      rw [if_neg hsel]
    unfold updateHistory
    rw [hnew, if_pos hcap, hold]
    have hc : s.historyCount - 1 + 1 = s.historyCount := by omega
    simp [hc]

/-- Witness for the amended C5: a table at capacity one holding "a" receives
the new key "b"; "a" is evicted and the count stays 1. -/
theorem C5_witness :
    ∃ k t, (k, t) ∈ ([("a", 3)] : List (String × Int)) ∧
      (∀ p ∈ ([("a", 3)] : List (String × Int)), t ≤ p.2) ∧
      updateHistory ⟨⟨60, 1, 0⟩, [("a", 3)], 1⟩ "b" 5 =
        some ⟨⟨60, 1, 0⟩, histSet (histDelete [("a", 3)] k) "b" 65, 1⟩ :=
  C5_eviction_evicts_earliest ⟨⟨60, 1, 0⟩, [("a", 3)], 1⟩ "b" 5 (by decide)
    (by decide) (by decide)

/-- Claim C6, settled against the code: each run of removeExpiredHistory
does remove every expired entry, but the sweeper goroutine consists of a
single select with no enclosing loop, so over any sequence of events it
performs at most one cleanup pass; on two consecutive ticks with no
cancellation the code sweeps once where the periodic task of the claim
sweeps twice. -/
theorem C6_sweeper_runs_at_most_once :
    (∀ s now, ((removeExpiredHistory s now).history.all
      (fun p => !(expired now p.2))) = true) ∧
    sweeperRunCount [SweeperEvent.tick, SweeperEvent.tick] = 1 ∧
    sweeperRunCountSpec [SweeperEvent.tick, SweeperEvent.tick] = 2 ∧
    (∀ evts, sweeperRunCount evts ≤ 1) := by
  refine ⟨?_, rfl, rfl, ?_⟩
  · intro s now
    simpa [removeExpiredHistory] using sweepHist_all s.history now
  · intro evts
    match evts with
    | [] => simp [sweeperRunCount]
    | SweeperEvent.done :: rest => simp [sweeperRunCount]
    | SweeperEvent.tick :: rest => simp [sweeperRunCount]

/-- Claim C7: the bookkeeping invariant, that the live count equals the
number of keys of the history map, holds after construction and is preserved
by every mutator: updateHistory (hit refresh and new-key insert, with or
without eviction), removeOldestHistory, removeExpiredHistory, and any
completed Handle call. -/
theorem C7_count_matches_keys :
    (∀ o, inv (NewDedupHandler o)) ∧
    (∀ s m now s2, inv s → updateHistory s m now = some s2 → inv s2) ∧
    (∀ s now, inv s → inv (removeExpiredHistory s now)) ∧
    (∀ s now s2, inv s → removeOldestHistory s now = some s2 → inv s2) ∧
    (∀ s r now s2 b, inv s → Handle s r now = some (s2, b) → inv s2) :=
  ⟨inv_NewDedupHandler,
   fun s m now s2 => inv_updateHistory s m now s2,
   inv_removeExpiredHistory,
   fun s now s2 => inv_removeOldestHistory s now s2,
   fun s r now s2 b => inv_Handle s r now s2 b⟩

/-- Witness for C7: the invariant holds on a concrete two-entry state and is
preserved by a concrete sweep, a concrete insert and a concrete Handle
call. -/
theorem C7_witness :
    inv (NewDedupHandler none) ∧
    inv (removeExpiredHistory ⟨⟨60, 4, 0⟩, [("a", 1), ("b", 9)], 2⟩ 5) ∧
    inv (⟨⟨60, 4, 0⟩, [("a", 1), ("b", 9), ("c", 65)], 3⟩ : DedupHandler) ∧
    inv (⟨⟨60, 4, 0⟩, [("a", 1), ("b", 9), ("c", 65), ("x", 65)], 4⟩ :
      DedupHandler) :=
  ⟨C7_count_matches_keys.1 none,
   C7_count_matches_keys.2.2.1 ⟨⟨60, 4, 0⟩, [("a", 1), ("b", 9)], 2⟩ 5
     ⟨by decide, by decide⟩,
   C7_count_matches_keys.2.1 ⟨⟨60, 4, 0⟩, [("a", 1), ("b", 9)], 2⟩ "c" 5
     ⟨⟨60, 4, 0⟩, [("a", 1), ("b", 9), ("c", 65)], 3⟩
     ⟨by decide, by decide⟩ (by decide),
   C7_count_matches_keys.2.2.2.2 ⟨⟨60, 4, 0⟩, [("a", 1), ("b", 9), ("c", 65)], 3⟩
     ⟨"x", 9⟩ 5 ⟨⟨60, 4, 0⟩, [("a", 1), ("b", 9), ("c", 65), ("x", 65)], 4⟩ true
     ⟨by decide, by decide⟩ (by decide)⟩

/-- Counterexample to claim C8 (and evidence of the code defect): on the
non-empty table holding only the entry for the empty-string message,
removeOldestHistory reaches the panic branch, because the selected key
collides with the empty-string sentinel; the claim says the panic happens
only on an empty table. -/
theorem C8_panic_on_nonempty_table :
    removeOldestHistory ⟨⟨60, 1, 0⟩, [("", 2)], 1⟩ 0 = none ∧
    ([("", 2)] : List (String × Int)) ≠ [] := by
  exact ⟨rfl, by simp⟩

/-- Counterexample to claim C9: a configuration with negative retention and
zero max size is accepted unchanged by NewDedupHandler (no configuration
error exists in the interface), and the misconfiguration surfaces later as a
runtime panic of the very first dedup-eligible dispatch. -/
theorem C9_counterexample :
    NewDedupHandler (some ⟨-1, 0, 0⟩) = ⟨⟨-1, 0, 0⟩, [], 0⟩ ∧
    Handle (NewDedupHandler (some ⟨-1, 0, 0⟩)) ⟨"m", 0⟩ 0 = none := by
  exact ⟨rfl, rfl⟩

/-- Claim C9 as amended: construction performs no validation at all and
returns a handler for any configuration; a non-positive max history size
manifests later at runtime, as a panic of removeOldestHistory on the first
insert of a new message. -/
theorem C9_no_construction_validation (o : HandlerOptions) (m : String)
    (now : Int) (hbad : o.MaxHistoryCount ≤ 0) :
    NewDedupHandler (some o) = ⟨o, [], 0⟩ ∧
    updateHistory (NewDedupHandler (some o)) m now = none := by
  refine ⟨rfl, ?_⟩
  show updateHistory ⟨o, [], 0⟩ m now = none
  unfold updateHistory
  simp only [histFind]
  rw [if_pos (by simpa using hbad)]
  unfold removeOldestHistory
  simp [removeOldestLoop]

/-- Witness for the amended C9: max size zero is accepted at construction
and the first insert panics. -/
theorem C9_witness :
    NewDedupHandler (some ⟨10, 0, 0⟩) = ⟨⟨10, 0, 0⟩, [], 0⟩ ∧
    updateHistory (NewDedupHandler (some ⟨10, 0, 0⟩)) "w" 7 = none :=
  C9_no_construction_validation ⟨10, 0, 0⟩ "w" 7 (by decide)

/-- Claim C10: WithAttrs and WithGroup each build a fresh handler carrying
the same options but an empty history and zero count, so dedup state is not
shared: a message currently suppressed on the parent (the parent call is
absorbed) is still forwarded on the freshly derived handler, and since the
derived handler is a distinct value the parent state is untouched by it. -/
theorem C10_derived_handlers_independent (s : DedupHandler) (r : Record)
    (now : Int) (hmax : 0 < s.opts.MaxHistoryCount)
    (hlev : r.Level ≤ s.opts.DedupLogLevel)
    (hdup : duplicated s r.Message now = true) :
    WithAttrs s = ⟨s.opts, [], 0⟩ ∧
    WithGroup s = ⟨s.opts, [], 0⟩ ∧
    Handle s r now = some (s, false) ∧
    Handle (WithAttrs s) r now =
      some (⟨s.opts, [(r.Message, now + s.opts.HistoryRetentionPeriod)], 1⟩,
        true) ∧
    Handle (WithGroup s) r now =
      some (⟨s.opts, [(r.Message, now + s.opts.HistoryRetentionPeriod)], 1⟩,
        true) := by
  refine ⟨rfl, rfl, ?_, ?_, ?_⟩
  · unfold Handle
    rw [if_pos ⟨hlev, hdup⟩]
  · exact Handle_fresh s.opts r now hmax
  · exact Handle_fresh s.opts r now hmax

/-- Witness for C10: "m" is live on the parent (absorbed there) yet the
derived handlers forward it fresh. -/
theorem C10_witness :
    WithAttrs ⟨⟨60, 2, 0⟩, [("m", 100)], 1⟩ = ⟨⟨60, 2, 0⟩, [], 0⟩ ∧
    WithGroup ⟨⟨60, 2, 0⟩, [("m", 100)], 1⟩ = ⟨⟨60, 2, 0⟩, [], 0⟩ ∧
    Handle ⟨⟨60, 2, 0⟩, [("m", 100)], 1⟩ ⟨"m", 0⟩ 0 =
      some (⟨⟨60, 2, 0⟩, [("m", 100)], 1⟩, false) ∧
    Handle (WithAttrs ⟨⟨60, 2, 0⟩, [("m", 100)], 1⟩) ⟨"m", 0⟩ 0 =
      some (⟨⟨60, 2, 0⟩, [("m", 60)], 1⟩, true) ∧
    Handle (WithGroup ⟨⟨60, 2, 0⟩, [("m", 100)], 1⟩) ⟨"m", 0⟩ 0 =
      some (⟨⟨60, 2, 0⟩, [("m", 60)], 1⟩, true) :=
  C10_derived_handlers_independent ⟨⟨60, 2, 0⟩, [("m", 100)], 1⟩ ⟨"m", 0⟩ 0
    (by decide) (by decide) (by decide)

end Deduplog
